import Mathlib

/-!
Verification of the phone-parser repository (`src/index.js`).

The repository is a single class `PhoneNumberParser` wrapping the external
library `libphonenumber-js`.  We embed it shallowly:

* JS `RegExp` values are embedded as `JSRegex`: a star-free regex core `RE`
  (the registered patterns use only literals, `\d` and bounded repetition)
  plus the two anchors `^` and `$`.  `JSRegex.test` follows JS
  `RegExp.prototype.test` semantics: it searches for a match anywhere in the
  string, restricted by whichever anchors the pattern carries.
* The JS object `this.countryValidations` is an association list
  `List (String × JSRegex)`; `tableInsert` models `obj[k] = v` (in-place
  overwrite keeping position, append for a fresh key), `tableRemove` models
  `delete obj[k]`, `lookupTable` models property lookup.
* The external parser `parsePhoneNumberFromString` is the out-of-scope
  collaborator (spec §6): a parameter `ext : ExtParser` returning `none` for
  an unparseable input and otherwise a `ParsedNumber` with the validity flag
  (`isValid()`), detected country (`.country`, possibly undefined) and the
  `E.164` formatted form.
* `validate` throws a JS `Error`; we model its result as `Except String Bool`.
-/

/-- Star-free regular-expression core: enough for every pattern the source
registers (`\+`, literal digits/letters, `\d`, `{n}`, `{n,m}` by expansion). -/
inductive RE where
  | eps : RE
  | char (c : Char) : RE
  | digit : RE
  | seq (a b : RE) : RE
  | alt (a b : RE) : RE
deriving DecidableEq, Repr

/-- Whole-list matching for the regex core.  `seq` tries every split point. -/
def RE.matches : RE → List Char → Bool
  | .eps, l => l.isEmpty
  | .char c, l => l == [c]
  | .digit, l =>
    match l with
    | [d] => d.isDigit
    | _ => false
  | .seq a b, l =>
    (List.range (l.length + 1)).any fun i =>
      a.matches (l.take i) && b.matches (l.drop i)
  | .alt a b, l => a.matches l || b.matches l

/-- A JS `RegExp` as the source uses it: a core pattern together with the
optional `^` and `$` anchors written in the pattern text. -/
structure JSRegex where
  anchorStart : Bool
  anchorEnd : Bool
  re : RE
deriving DecidableEq, Repr

/-- JS `RegExp.prototype.test`: true iff the pattern matches some substring of
`s`, constrained to start at the beginning when the pattern is written with
`^` and to end at the end when written with `$`. -/
def JSRegex.test (p : JSRegex) (s : String) : Bool :=
  let l := s.toList
  match p.anchorStart, p.anchorEnd with
  | true, true => p.re.matches l
  | true, false => (List.range (l.length + 1)).any fun i => p.re.matches (l.take i)
  | false, true => (List.range (l.length + 1)).any fun i => p.re.matches (l.drop i)
  | false, false =>
    (List.range (l.length + 1)).any fun i =>
      (List.range (l.length + 1 - i)).any fun j => p.re.matches ((l.drop i).take j)

/-- Literal text regex: `litRE cs` matches exactly the string `cs`. -/
def litRE : List Char → RE
  | [] => .eps
  | c :: cs => .seq (.char c) (litRE cs)

/-- Regex `repRE r n`, i.e. `r{n}`: exactly `n` copies of `r` in sequence. -/
def repRE : RE → Nat → RE
  | _, 0 => .eps
  | r, n + 1 => .seq r (repRE r n)

/-- Regex `uptoRE r n`, i.e. `r{0,n}`: at most `n` copies of `r` in sequence. -/
def uptoRE : RE → Nat → RE
  | _, 0 => .eps
  | r, n + 1 => .alt .eps (.seq r (uptoRE r n))

/-- Shape `/^\+<cc body>\d{lo,hi}$/` common to every default pattern of the
source constructor (`\d{n}` is `\d{n,n}`). -/
def anchoredPat (pfx : String) (lo hi : Nat) : JSRegex :=
  ⟨true, true, .seq (litRE pfx.toList) (.seq (repRE .digit lo) (uptoRE .digit (hi - lo)))⟩

/-- Pattern `/^\+1\d{10}$/` (src/index.js line 10). -/
def usPattern : JSRegex := anchoredPat "+1" 10 10

/-- Pattern `/^\+44\d{10}$/` (src/index.js line 11). -/
def ukPattern : JSRegex := anchoredPat "+44" 10 10

/-- Pattern `/^\+380\d{9}$/` (src/index.js line 12). -/
def uaPattern : JSRegex := anchoredPat "+380" 9 9

/-- Pattern `/^\+33\d{9}$/` (src/index.js line 13). -/
def frPattern : JSRegex := anchoredPat "+33" 9 9

/-- Pattern `/^\+49\d{10,11}$/` (src/index.js line 14). -/
def dePattern : JSRegex := anchoredPat "+49" 10 11

/-- The `this.countryValidations` JS object: keys in insertion order. -/
abbrev Table := List (String × JSRegex)

/-- JS property read `obj[c]`: the value at key `c`, `none` for `undefined`. -/
def lookupTable (t : Table) (c : String) : Option JSRegex :=
  (t.find? fun e => e.1 == c).map (·.2)

/-- JS assignment `obj[c] = p`: overwrite in place when the key exists
(keeping its position), otherwise append the new key. -/
def tableInsert (t : Table) (c : String) (p : JSRegex) : Table :=
  if t.any (fun e => e.1 == c) then
    t.map fun e => if e.1 == c then (c, p) else e
  else
    t ++ [(c, p)]

/-- JS `delete obj[c]`: drop the key if present, no-op otherwise. -/
def tableRemove (t : Table) (c : String) : Table :=
  t.filter fun e => !(e.1 == c)

/-- Result object of the external parser: `isValid()`, `.country`
(`none` when the library leaves it undefined) and `format('E.164')`. -/
structure ParsedNumber where
  isValid : Bool
  country : Option String
  e164 : String
deriving DecidableEq, Repr

/-- The external collaborator `parsePhoneNumberFromString` (black box,
spec §6): `none` models an unparseable input. -/
abbrev ExtParser := String → String → Option ParsedNumber

/-- Instance state of `class PhoneNumberParser` (src/index.js lines 8–18). -/
structure PhoneNumberParser where
  countryValidations : Table
  defaultCountry : String
deriving DecidableEq, Repr

/-- The constructor: the five default policies and `defaultCountry = 'US'`
(src/index.js lines 8–18). -/
def PhoneNumberParser.new : PhoneNumberParser :=
  { countryValidations :=
      [("US", usPattern), ("UK", ukPattern), ("UA", uaPattern),
       ("FR", frPattern), ("DE", dePattern)],
    defaultCountry := "US" }

/-- JS property access `obj[k]` coerces an `undefined` key to the string
key `"undefined"`; `parsedNumber.country` may be undefined. -/
def countryKey : Option String → String
  | some d => d
  | none => "undefined"

/-- Method `PhoneNumberParser.parse` (src/index.js lines 26–42): delegate to the
external parser, return `null` on failure or parser-reported invalidity,
otherwise take the E.164 form and, when the detected country has a policy
entry, require `regex.test(formattedNumber)`; the JS default argument
`countryCode = this.defaultCountry` is passed explicitly here. -/
def PhoneNumberParser.parse (ext : ExtParser) (self : PhoneNumberParser)
    (phoneNumber : String) (countryCode : String) : Option String :=
  match ext phoneNumber countryCode with
  | none => none
  | some parsedNumber =>
    if !parsedNumber.isValid then
      none
    else
      let formattedNumber := parsedNumber.e164
      let detectedCountry := parsedNumber.country
      match lookupTable self.countryValidations (countryKey detectedCountry) with
      | some re => if re.test formattedNumber then some formattedNumber else none
      | none => some formattedNumber

/-- Method `PhoneNumberParser.validate` (src/index.js lines 50–57): throw
(`Except.error`) when `countryCode` has no policy entry, else report whether
`parse` produced a non-null result. -/
def PhoneNumberParser.validate (ext : ExtParser) (self : PhoneNumberParser)
    (phoneNumber : String) (countryCode : String) : Except String Bool :=
  match lookupTable self.countryValidations countryCode with
  | none => .error ("Validation rules not defined for country: " ++ countryCode)
  | some _ => .ok (self.parse ext phoneNumber countryCode).isSome

/-- Method `PhoneNumberParser.addCountryValidation` (src/index.js lines 64–66):
`this.countryValidations[countryCode] = regex`. -/
def PhoneNumberParser.addCountryValidation (self : PhoneNumberParser)
    (countryCode : String) (regex : JSRegex) : PhoneNumberParser :=
  { self with countryValidations := tableInsert self.countryValidations countryCode regex }

/-- Method `PhoneNumberParser.removeCountryValidation` (src/index.js lines 72–74):
`delete this.countryValidations[countryCode]`. -/
def PhoneNumberParser.removeCountryValidation (self : PhoneNumberParser)
    (countryCode : String) : PhoneNumberParser :=
  { self with countryValidations := tableRemove self.countryValidations countryCode }

/-- Method `PhoneNumberParser.listSupportedCountries` (src/index.js lines 80–82):
`return this.countryValidations;` — the instance's own object, not a copy. -/
def PhoneNumberParser.listSupportedCountries (self : PhoneNumberParser) : Table :=
  self.countryValidations

/-- A caller writing `parser.listSupportedCountries()[cc] = regex`.  Because
`listSupportedCountries` returns `this.countryValidations` itself (the live
object, src/index.js line 81), the assignment lands in the instance's table;
this definition records that aliasing as an explicit state transform. -/
def PhoneNumberParser.mutateListed (self : PhoneNumberParser)
    (countryCode : String) (regex : JSRegex) : PhoneNumberParser :=
  { self with
      countryValidations := tableInsert self.listSupportedCountries countryCode regex }

/-- A concrete substitutable implementation of the external collaborator
(spec §6: "any library or hand-written implementation satisfying this
contract is substitutable"), used to evaluate the wrapper on closed inputs.
The mapped results mirror `libphonenumber-js` on the usage examples of
src/index.js lines 89–110. -/
def extStub : ExtParser := fun raw hint =>
  if raw == "nope" then none
  else if raw == "abcdefgh" then none
  else if raw == "+999123456789" then some ⟨false, none, "+999123456789"⟩
  else if raw == "1234567890" && hint == "US" then some ⟨true, some "US", "+11234567890"⟩
  else if raw == "+11234567890" then some ⟨true, some "US", "+11234567890"⟩
  else if raw == "0671234567" && hint == "UA" then some ⟨true, some "UA", "+380671234567"⟩
  else if raw == "+15145551234" then some ⟨true, some "CA", "+15145551234"⟩
  else none

/-! ### Association-table lemmas (shared helpers) -/

lemma any_key_map_overwrite (t : Table) (c : String) (p : JSRegex)
    (h : t.any (fun e => e.1 == c) = true) :
    (t.map fun e => if e.1 == c then (c, p) else e).any (fun e => e.1 == c) = true := by
  induction t with
  | nil => simp at h
  | cons a t ih =>
    simp only [List.map_cons, List.any_cons, Bool.or_eq_true] at h ⊢
    by_cases hc : (a.1 == c) = true
    · left
      simp [hc]
    · rcases h with h | h
      · exact absurd h hc
      · exact Or.inr (ih h)

lemma map_overwrite_of_not_key (t : Table) (c : String) (p : JSRegex)
    (h : t.any (fun e => e.1 == c) = false) :
    (t.map fun e => if e.1 == c then (c, p) else e) = t := by
  induction t with
  | nil => rfl
  | cons a t ih =>
    simp only [List.any_cons, Bool.or_eq_false_iff] at h
    have hc : ¬ ((a.1 == c) = true) := by simp [h.1]
    rw [List.map_cons, if_neg hc, ih h.2]

lemma tableInsert_idem (t : Table) (c : String) (p : JSRegex) :
    tableInsert (tableInsert t c p) c p = tableInsert t c p := by
  by_cases h : t.any (fun e => e.1 == c) = true
  · simp only [tableInsert, h, if_true, any_key_map_overwrite t c p h, List.map_map]
    apply List.map_congr_left
    intro e _
    by_cases hc : (e.1 == c) = true <;> simp [hc, Function.comp]
  · rw [Bool.not_eq_true] at h
    simp only [tableInsert, h, Bool.false_eq_true, if_false]
    have hany : (t ++ [(c, p)]).any (fun e => e.1 == c) = true := by
      simp [List.any_append]
    simp only [hany, if_true, List.map_append]
    rw [map_overwrite_of_not_key t c p h]
    simp

lemma find?_map_overwrite (t : Table) (c : String) (p : JSRegex)
    (h : t.any (fun e => e.1 == c) = true) :
    (t.map fun e => if e.1 == c then (c, p) else e).find? (fun e => e.1 == c) = some (c, p) := by
  induction t with
  | nil => simp at h
  | cons a t ih =>
    by_cases hc : (a.1 == c) = true
    · rw [List.map_cons, if_pos hc]
      exact List.find?_cons_of_pos _ (by simp)
    · rw [List.map_cons, if_neg hc, List.find?_cons_of_neg (p := fun e : String × JSRegex => e.1 == c) _ hc]
      simp only [List.any_cons, Bool.or_eq_true] at h
      exact ih (h.resolve_left hc)

lemma lookupTable_insert_self (t : Table) (c : String) (p : JSRegex) :
    lookupTable (tableInsert t c p) c = some p := by
  by_cases h : t.any (fun e => e.1 == c) = true
  · rw [tableInsert, if_pos h, lookupTable, find?_map_overwrite t c p h]
    rfl
  · rw [Bool.not_eq_true] at h
    have hnone : t.find? (fun e => e.1 == c) = none := by
      rw [List.find?_eq_none]
      intro x hx hcx
      rw [List.any_eq_true.2 ⟨x, hx, hcx⟩] at h
      exact Bool.true_eq_false.mp h
    rw [tableInsert, if_neg (by simp [h]), lookupTable, List.find?_append, hnone]
    simp [List.find?]

lemma lookupTable_remove_self (t : Table) (c : String) :
    lookupTable (tableRemove t c) c = none := by
  have hfind : (tableRemove t c).find? (fun e => e.1 == c) = none := by
    rw [List.find?_eq_none]
    intro x hx
    have hmem := List.of_mem_filter hx
    simp only [Bool.not_eq_true'] at hmem
    simp [hmem]
  rw [lookupTable, hfind]
  rfl

lemma tableRemove_idem (t : Table) (c : String) :
    tableRemove (tableRemove t c) c = tableRemove t c := by
  simp [tableRemove, List.filter_filter]

lemma tableRemove_of_lookup_none (t : Table) (c : String)
    (h : lookupTable t c = none) : tableRemove t c = t := by
  have hfind : t.find? (fun e => e.1 == c) = none := by
    rw [lookupTable, Option.map_eq_none'] at h
    exact h
  rw [List.find?_eq_none] at hfind
  apply List.filter_eq_self.2
  intro e he
  simpa using hfind e he

/-! ### Regex-matcher characterization lemmas (shared helpers) -/

lemma digit_matches (l : List Char) :
    RE.digit.matches l = true ↔ ∃ d, l = [d] ∧ d.isDigit = true := by
  cases l with
  | nil => simp [RE.matches]
  | cons c l =>
    cases l with
    | nil => simp [RE.matches]
    | cons d l => simp [RE.matches]

lemma eps_matches_iff (l : List Char) : RE.eps.matches l = true ↔ l = [] := by
  simp [RE.matches, List.isEmpty_iff]

lemma alt_matches_iff (a b : RE) (l : List Char) :
    (RE.alt a b).matches l = true ↔ a.matches l = true ∨ b.matches l = true := by
  show (a.matches l || b.matches l) = true ↔ _
  exact (Bool.or_eq_true _ _).to_iff

lemma seq_matches_iff (a b : RE) (l : List Char) :
    (RE.seq a b).matches l = true ↔
      ∃ l1 l2, l = l1 ++ l2 ∧ a.matches l1 = true ∧ b.matches l2 = true := by
  constructor
  · intro h
    simp only [RE.matches, List.any_eq_true, List.mem_range] at h
    rcases h with ⟨i, _, hab⟩
    rw [Bool.and_eq_true] at hab
    exact ⟨l.take i, l.drop i, (List.take_append_drop i l).symm, hab.1, hab.2⟩
  · rintro ⟨l1, l2, rfl, ha, hb⟩
    simp only [RE.matches, List.any_eq_true, List.mem_range]
    refine ⟨l1.length, ?_, ?_⟩
    · have := List.length_append l1 l2
      omega
    · rw [Bool.and_eq_true, List.take_left, List.drop_left]
      exact ⟨ha, hb⟩

lemma litRE_matches (cs l : List Char) : (litRE cs).matches l = true ↔ l = cs := by
  induction cs generalizing l with
  | nil => simp [litRE, RE.matches, List.isEmpty_iff]
  | cons c cs ih =>
    simp only [litRE]
    rw [seq_matches_iff]
    constructor
    · rintro ⟨l1, l2, rfl, h1, h2⟩
      have h1 : l1 = [c] := by simpa [RE.matches] using h1
      rw [ih l2] at h2
      rw [h1, h2]
      rfl
    · rintro rfl
      exact ⟨[c], cs, rfl, by simp [RE.matches], (ih cs).2 rfl⟩

lemma repRE_digit_matches (n : Nat) (l : List Char) :
    (repRE RE.digit n).matches l = true ↔
      l.length = n ∧ ∀ c ∈ l, c.isDigit = true := by
  induction n generalizing l with
  | zero =>
    constructor
    · intro h
      have hl : l = [] := by simpa [repRE, RE.matches, List.isEmpty_iff] using h
      subst hl
      simp
    · rintro ⟨h, _⟩
      rw [List.length_eq_zero] at h
      subst h
      simp [repRE, RE.matches]
  | succ n ih =>
    simp only [repRE]
    rw [seq_matches_iff]
    constructor
    · rintro ⟨l1, l2, rfl, h1, h2⟩
      rcases (digit_matches l1).1 h1 with ⟨d, rfl, hd⟩
      rcases (ih l2).1 h2 with ⟨hlen, hall⟩
      refine ⟨by simp [hlen], ?_⟩
      intro c hc
      rcases List.mem_cons.1 hc with rfl | hc
      · exact hd
      · exact hall c hc
    · rintro ⟨hlen, hall⟩
      cases l with
      | nil => simp at hlen
      | cons c l =>
        refine ⟨[c], l, rfl, (digit_matches [c]).2 ⟨c, rfl, hall c (by simp)⟩, (ih l).2 ⟨?_, ?_⟩⟩
        · simpa using hlen
        · intro d hd
          exact hall d (by simp [hd])

lemma uptoRE_digit_matches (n : Nat) (l : List Char) :
    (uptoRE RE.digit n).matches l = true ↔
      l.length ≤ n ∧ ∀ c ∈ l, c.isDigit = true := by
  induction n generalizing l with
  | zero =>
    constructor
    · intro h
      have hl : l = [] := by simpa [uptoRE, RE.matches, List.isEmpty_iff] using h
      subst hl
      simp
    · rintro ⟨h, _⟩
      have hl : l = [] := by
        rw [← List.length_eq_zero]
        omega
      subst hl
      simp [uptoRE, RE.matches]
  | succ n ih =>
    simp only [uptoRE]
    rw [alt_matches_iff]
    constructor
    · intro h
      rcases h with h | h
      · have hl : l = [] := (eps_matches_iff l).1 h
        subst hl
        simp
      · rcases (seq_matches_iff _ _ _).1 h with ⟨l1, l2, rfl, h1, h2⟩
        rcases (digit_matches l1).1 h1 with ⟨d, rfl, hd⟩
        rcases (ih l2).1 h2 with ⟨hlen, hall⟩
        refine ⟨by simp; omega, ?_⟩
        intro c hc
        rcases List.mem_cons.1 hc with rfl | hc
        · exact hd
        · exact hall c hc
    · rintro ⟨hlen, hall⟩
      cases l with
      | nil => exact Or.inl ((eps_matches_iff []).2 rfl)
      | cons c l =>
        right
        refine (seq_matches_iff _ _ _).2
          ⟨[c], l, rfl, (digit_matches [c]).2 ⟨c, rfl, hall c (by simp)⟩, (ih l).2 ⟨?_, ?_⟩⟩
        · simpa using hlen
        · intro d hd
          exact hall d (by simp [hd])

lemma anchoredPat_test_iff (pfx : String) (lo hi : Nat) (s : String) :
    (anchoredPat pfx lo hi).test s = true ↔
      ∃ ds, s.toList = pfx.toList ++ ds ∧ lo ≤ ds.length ∧ ds.length ≤ lo + (hi - lo) ∧
        ∀ c ∈ ds, c.isDigit = true := by
  show (RE.seq (litRE pfx.toList)
      (.seq (repRE .digit lo) (uptoRE .digit (hi - lo)))).matches s.toList = true ↔ _
  rw [seq_matches_iff]
  constructor
  · rintro ⟨l1, l2, heq, h1, h2⟩
    rw [litRE_matches] at h1
    subst h1
    rcases (seq_matches_iff _ _ _).1 h2 with ⟨m1, m2, rfl, hm1, hm2⟩
    rcases (repRE_digit_matches lo m1).1 hm1 with ⟨hlen1, hd1⟩
    rcases (uptoRE_digit_matches _ m2).1 hm2 with ⟨hlen2, hd2⟩
    refine ⟨m1 ++ m2, heq, ?_, ?_, ?_⟩
    · simp [hlen1]
    · simp only [List.length_append]
      omega
    · intro c hc
      rcases List.mem_append.1 hc with hc | hc
      · exact hd1 c hc
      · exact hd2 c hc
  · rintro ⟨ds, heq, hlo, hhi, hd⟩
    refine ⟨pfx.toList, ds, heq, (litRE_matches _ _).2 rfl, ?_⟩
    refine (seq_matches_iff _ _ _).2
      ⟨ds.take lo, ds.drop lo, (List.take_append_drop lo ds).symm, ?_, ?_⟩
    · refine (repRE_digit_matches lo _).2 ⟨?_, ?_⟩
      · rw [List.length_take]
        omega
      · intro c hc
        exact hd c (List.take_subset lo ds hc)
    · refine (uptoRE_digit_matches _ _).2 ⟨?_, ?_⟩
      · rw [List.length_drop]
        omega
      · intro c hc
        exact hd c (List.drop_subset lo ds hc)

lemma anchoredPat_test_exact (pfx : String) (n : Nat) (s : String) :
    (anchoredPat pfx n n).test s = true ↔
      ∃ ds, s.toList = pfx.toList ++ ds ∧ ds.length = n ∧ ∀ c ∈ ds, c.isDigit = true := by
  rw [anchoredPat_test_iff]
  constructor
  · rintro ⟨ds, h1, h2, h3, h4⟩
    exact ⟨ds, h1, by omega, h4⟩
  · rintro ⟨ds, h1, h2, h3⟩
    exact ⟨ds, h1, by omega, by omega, h3⟩

/-! ### Claim theorems -/

/-- C1: `parse` returns absent when the external parser fails or reports the
input invalid; otherwise, when the detected country has a policy entry the
normalized form is returned exactly when the entry's pattern accepts it
(absent on mismatch), and when the detected country has no entry the
parser's own validity judgment is accepted as-is and the normalized form is
returned. -/
theorem parse_policy_cases (ext : ExtParser) (self : PhoneNumberParser)
    (raw hint : String) :
    (ext raw hint = none → self.parse ext raw hint = none) ∧
    (∀ r, ext raw hint = some r → r.isValid = false →
      self.parse ext raw hint = none) ∧
    (∀ r d pat, ext raw hint = some r → r.isValid = true → r.country = some d →
      lookupTable self.countryValidations d = some pat →
      self.parse ext raw hint = if pat.test r.e164 then some r.e164 else none) ∧
    (∀ r d, ext raw hint = some r → r.isValid = true → r.country = some d →
      lookupTable self.countryValidations d = none →
      self.parse ext raw hint = some r.e164) := by
  refine ⟨?_, ?_, ?_, ?_⟩
  · intro h
    simp [PhoneNumberParser.parse, h]
  · intro r hr hv
    simp [PhoneNumberParser.parse, hr, hv]
  · intro r d pat hr hv hd hp
    simp [PhoneNumberParser.parse, hr, hv, hd, countryKey, hp]
  · intro r d hr hv hd hp
    simp [PhoneNumberParser.parse, hr, hv, hd, countryKey, hp]

/-- Witness for C1 at concrete inputs of the usage examples. -/
theorem parse_policy_cases_witness :
    PhoneNumberParser.new.parse extStub "nope" "US" = none ∧
    PhoneNumberParser.new.parse extStub "+999123456789" "US" = none ∧
    PhoneNumberParser.new.parse extStub "1234567890" "US" =
      (if usPattern.test "+11234567890" then some "+11234567890" else none) ∧
    PhoneNumberParser.new.parse extStub "+15145551234" "US" = some "+15145551234" :=
  ⟨(parse_policy_cases extStub PhoneNumberParser.new "nope" "US").1 rfl,
   (parse_policy_cases extStub PhoneNumberParser.new "+999123456789" "US").2.1
     ⟨false, none, "+999123456789"⟩ rfl rfl,
   (parse_policy_cases extStub PhoneNumberParser.new "1234567890" "US").2.2.1
     ⟨true, some "US", "+11234567890"⟩ "US" usPattern rfl rfl rfl (by decide),
   (parse_policy_cases extStub PhoneNumberParser.new "+15145551234" "US").2.2.2
     ⟨true, some "CA", "+15145551234"⟩ "CA" rfl rfl rfl (by decide)⟩

/-- The unanchored JS regex `/\d{4}/`. -/
def looseUSPattern : JSRegex := ⟨false, false, repRE RE.digit 4⟩

/-- C2 counterexample: register the unanchored pattern `/\d{4}/` for `US`;
the normalized form `+11234567890` is not a full-string match of `\d{4}`,
yet `parse` accepts it, because JS `RegExp.test` is a substring search. -/
theorem parse_fullString_cex :
    lookupTable (PhoneNumberParser.new.addCountryValidation "US"
        looseUSPattern).countryValidations "US" = some looseUSPattern ∧
    (PhoneNumberParser.new.addCountryValidation "US" looseUSPattern).parse extStub
        "+11234567890" "US" = some "+11234567890" ∧
    looseUSPattern.re.matches "+11234567890".toList = false := by
  refine ⟨by decide, by decide, by decide⟩

/-- C2 amended: when the detected country has a policy entry, `parse` accepts
the normalized form exactly when the entry's `test` succeeds — a substring
search constrained only by the anchors written in the pattern text; for a
pattern anchored on both ends (as all five defaults are) that is precisely a
full-string match of the pattern body. -/
theorem parse_policyTest_iff (ext : ExtParser) (self : PhoneNumberParser)
    (raw hint : String) (r : ParsedNumber) (d : String) (pat : JSRegex)
    (hr : ext raw hint = some r) (hv : r.isValid = true) (hd : r.country = some d)
    (hp : lookupTable self.countryValidations d = some pat) :
    (self.parse ext raw hint = some r.e164 ↔ pat.test r.e164 = true) ∧
    (pat.anchorStart = true → pat.anchorEnd = true →
      (pat.test r.e164 = true ↔ pat.re.matches r.e164.toList = true)) := by
  have hparse : self.parse ext raw hint = if pat.test r.e164 then some r.e164 else none := by
    simp [PhoneNumberParser.parse, hr, hv, hd, countryKey, hp]
  constructor
  · rw [hparse]
    by_cases ht : pat.test r.e164 = true
    · simp [ht]
    · simp [ht]
  · intro h1 h2
    rcases pat with ⟨as, ae, re⟩
    simp only at h1 h2
    subst h1
    subst h2
    exact Iff.rfl

/-- Witness for C2's amended theorem at a concrete accepted US number. -/
theorem parse_policyTest_iff_witness :
    (PhoneNumberParser.new.parse extStub "+11234567890" "US" = some "+11234567890" ↔
      usPattern.test "+11234567890" = true) ∧
    (usPattern.anchorStart = true → usPattern.anchorEnd = true →
      (usPattern.test "+11234567890" = true ↔
        usPattern.re.matches "+11234567890".toList = true)) :=
  parse_policyTest_iff extStub PhoneNumberParser.new "+11234567890" "US"
    ⟨true, some "US", "+11234567890"⟩ "US" usPattern rfl rfl rfl (by decide)

/-- C3: for every input and every country code with no policy entry,
`validate` raises the `Validation rules not defined` error regardless of the
input's shape; the embedding returns the raised error directly, so it
reaches the caller uncaught. -/
theorem validate_unknownPolicyCountry (ext : ExtParser) (self : PhoneNumberParser)
    (x c : String) (h : lookupTable self.countryValidations c = none) :
    self.validate ext x c =
      Except.error ("Validation rules not defined for country: " ++ c) := by
  simp [PhoneNumberParser.validate, h]

/-- Witness for C3: `CA` has no entry in the default table. -/
theorem validate_unknownPolicyCountry_witness :
    PhoneNumberParser.new.validate extStub "+15145551234" "CA" =
      Except.error ("Validation rules not defined for country: " ++ "CA") :=
  validate_unknownPolicyCountry extStub PhoneNumberParser.new "+15145551234" "CA"
    (by decide)

/-- C4: for every registered country code, `validate` answers `true` exactly
when `parse` with that code as the hint returns a non-absent value. -/
theorem validate_iff_parse (ext : ExtParser) (self : PhoneNumberParser)
    (x c : String) (pat : JSRegex)
    (h : lookupTable self.countryValidations c = some pat) :
    self.validate ext x c = Except.ok true ↔ self.parse ext x c ≠ none := by
  simp [PhoneNumberParser.validate, h, Option.isSome_iff_ne_none]

/-- Witness for C4: `UA` is registered; evaluating both sides on scenario 2
of the spec. -/
theorem validate_iff_parse_witness :
    PhoneNumberParser.new.validate extStub "0671234567" "UA" = Except.ok true ↔
      PhoneNumberParser.new.parse extStub "0671234567" "UA" ≠ none :=
  validate_iff_parse extStub PhoneNumberParser.new "0671234567" "UA" uaPattern
    (by decide)

/-- The anchored JS regex `/^x$/`, accepting only the string `x`. -/
def deadPattern : JSRegex := ⟨true, true, RE.char 'x'⟩

/-- C5 counterexample: `listSupportedCountries` returns the live table
(src/index.js line 81: `return this.countryValidations;`), so assigning into
the returned mapping (modelled by `mutateListed`) changes the behavior of a
subsequent `parse` call: the default instance accepts `1234567890` (US), but
after writing `/^x$/` into the returned mapping under `US` the same call
returns absent — external mutation bypasses `addCountryValidation`. -/
theorem listPolicies_alias_cex :
    PhoneNumberParser.new.parse extStub "1234567890" "US" = some "+11234567890" ∧
    (PhoneNumberParser.new.mutateListed "US" deadPattern).parse extStub
        "1234567890" "US" = none := by
  refine ⟨by decide, by decide⟩

/-- C5 amended: `listSupportedCountries` returns the live policy table, not
a copy or read-only view, so mutating the returned mapping is observably
identical to calling `addCountryValidation`: it writes straight into the
table and subsequent `parse` calls see the change. -/
theorem listPolicies_alias (ext : ExtParser) (self : PhoneNumberParser)
    (cc : String) (p : JSRegex) (raw hint : String) :
    self.mutateListed cc p = self.addCountryValidation cc p ∧
    (self.mutateListed cc p).parse ext raw hint =
      (self.addCountryValidation cc p).parse ext raw hint :=
  ⟨rfl, rfl⟩

/-- C6: calling `addCountryValidation` twice with the same country code and
pattern leaves the instance identical to one call. -/
theorem addOrReplacePolicy_idem (self : PhoneNumberParser) (c : String) (p : JSRegex) :
    (self.addCountryValidation c p).addCountryValidation c p =
      self.addCountryValidation c p := by
  show (⟨tableInsert (tableInsert self.countryValidations c p) c p, self.defaultCountry⟩ :
      PhoneNumberParser) = ⟨tableInsert self.countryValidations c p, self.defaultCountry⟩
  rw [tableInsert_idem]

/-- C7: `removeCountryValidation` deletes the entry (lookup afterwards is
absent), a second removal leaves the instance unchanged, and removing an
absent key is a no-op; removal never raises (it is total in the model, as
JS `delete` never throws here). -/
theorem removePolicy_double (self : PhoneNumberParser) (c : String) :
    lookupTable (self.removeCountryValidation c).countryValidations c = none ∧
    (self.removeCountryValidation c).removeCountryValidation c =
      self.removeCountryValidation c ∧
    (lookupTable self.countryValidations c = none →
      self.removeCountryValidation c = self) := by
  refine ⟨lookupTable_remove_self _ _, ?_, ?_⟩
  · show (⟨tableRemove (tableRemove self.countryValidations c) c, self.defaultCountry⟩ :
        PhoneNumberParser) = ⟨tableRemove self.countryValidations c, self.defaultCountry⟩
    rw [tableRemove_idem]
  · intro h
    show (⟨tableRemove self.countryValidations c, self.defaultCountry⟩ :
        PhoneNumberParser) = self
    rw [tableRemove_of_lookup_none _ _ h]

/-- Witness for C7: removing the absent key `CA` from the default table. -/
theorem removePolicy_double_witness :
    lookupTable (PhoneNumberParser.new.removeCountryValidation
        "CA").countryValidations "CA" = none ∧
    PhoneNumberParser.new.removeCountryValidation "CA" = PhoneNumberParser.new :=
  ⟨(removePolicy_double PhoneNumberParser.new "CA").1,
   (removePolicy_double PhoneNumberParser.new "CA").2.2 (by decide)⟩

/-- C8: after `addCountryValidation 'CA' p`, the mapping returned by
`listSupportedCountries` holds `CA ↦ p`; after the subsequent
`removeCountryValidation 'CA'` the key `CA` is absent from it. -/
theorem listPolicies_roundtrip (self : PhoneNumberParser) (p : JSRegex) :
    lookupTable (self.addCountryValidation "CA" p).listSupportedCountries "CA" =
      some p ∧
    lookupTable ((self.addCountryValidation "CA" p).removeCountryValidation
        "CA").listSupportedCountries "CA" = none :=
  ⟨lookupTable_insert_self _ _ _, lookupTable_remove_self _ _⟩

/-- C9: the constructor initializes the policy table with exactly the five
default entries, in source order, and each default pattern accepts precisely
the strings of its documented shape (`+` prefix, country calling code, the
stated number of digits). -/
theorem constructor_defaultPolicies :
    PhoneNumberParser.new.countryValidations =
      [("US", usPattern), ("UK", ukPattern), ("UA", uaPattern),
       ("FR", frPattern), ("DE", dePattern)] ∧
    (∀ s : String, usPattern.test s = true ↔
      ∃ ds, s.toList = '+' :: '1' :: ds ∧ ds.length = 10 ∧ ∀ c ∈ ds, c.isDigit = true) ∧
    (∀ s : String, ukPattern.test s = true ↔
      ∃ ds, s.toList = '+' :: '4' :: '4' :: ds ∧ ds.length = 10 ∧
        ∀ c ∈ ds, c.isDigit = true) ∧
    (∀ s : String, uaPattern.test s = true ↔
      ∃ ds, s.toList = '+' :: '3' :: '8' :: '0' :: ds ∧ ds.length = 9 ∧
        ∀ c ∈ ds, c.isDigit = true) ∧
    (∀ s : String, frPattern.test s = true ↔
      ∃ ds, s.toList = '+' :: '3' :: '3' :: ds ∧ ds.length = 9 ∧
        ∀ c ∈ ds, c.isDigit = true) ∧
    (∀ s : String, dePattern.test s = true ↔
      ∃ ds, s.toList = '+' :: '4' :: '9' :: ds ∧ 10 ≤ ds.length ∧ ds.length ≤ 11 ∧
        ∀ c ∈ ds, c.isDigit = true) := by
  refine ⟨rfl, fun s => ?_, fun s => ?_, fun s => ?_, fun s => ?_, fun s => ?_⟩
  · exact anchoredPat_test_exact "+1" 10 s
  · exact anchoredPat_test_exact "+44" 10 s
  · exact anchoredPat_test_exact "+380" 9 s
  · exact anchoredPat_test_exact "+33" 9 s
  · have h := anchoredPat_test_iff "+49" 10 11 s
    constructor
    · intro ht
      rcases h.1 ht with ⟨ds, h1, h2, h3, h4⟩
      exact ⟨ds, h1, h2, by omega, h4⟩
    · rintro ⟨ds, h1, h2, h3, h4⟩
      exact h.2 ⟨ds, h1, h2, by omega, h4⟩

/-- C10: `validate` checks registration only for its country-code argument:
for `+15145551234` the external parser detects `CA` (a different country
than the argument `US`, and one with no policy entry in the default table),
yet `validate` with argument `US` answers `true`. -/
theorem validate_ignores_detectedCountry :
    extStub "+15145551234" "US" =
      some { isValid := true, country := some "CA", e164 := "+15145551234" } ∧
    (("CA" : String) == "US") = false ∧
    lookupTable PhoneNumberParser.new.countryValidations "CA" = none ∧
    lookupTable PhoneNumberParser.new.countryValidations "US" = some usPattern ∧
    PhoneNumberParser.new.validate extStub "+15145551234" "US" = Except.ok true := by
  refine ⟨by decide, by decide, by decide, by decide, by rfl⟩
